import Mathlib

/-!
Shallow embedding of the TarzabanG document-translation pipeline
(`main.py`, `extract_all.py`) and theorems checking the specification's
claims about the segmentation engine (`get_ranges`), the selection filter
(`is_in_range`), the deterministic artifact naming (`get_paths`) and the
idempotent slice / extract / translate stages of `main`.

Strings, page texts and file contents are modelled with Lean `String`;
Python integers with `Int`; the filesystem with an association list from
full path to file content plus the list of existing directories. All string
manipulation is done through structural recursion over `List Char`, so that
every definition evaluates by kernel reduction on concrete inputs.
-/

/-! ### String primitives (models of the Python string operations used) -/

/-- Whether the character list `hay` starts with the character list `n`. -/
def startsWithChars : List Char → List Char → Bool
  | [], _ => true
  | _ :: _, [] => false
  | n :: ns, h :: hs => n == h && startsWithChars ns hs

/-- Whether `needle` occurs as a contiguous substring of `hay`. -/
def containsSub (needle : List Char) : List Char → Bool
  | [] => startsWithChars needle []
  | c :: rest => startsWithChars needle (c :: rest) || containsSub needle rest

/-- Python `s.startswith(pre)`. -/
def strStartsWith (s pre : String) : Bool := startsWithChars pre.toList s.toList

/-- Python `s.endswith(suf)`. -/
def strEndsWith (s suf : String) : Bool :=
  startsWithChars suf.toList.reverse s.toList.reverse

/-- Python `s.lower()` (ASCII model). -/
def strToLower (s : String) : String := String.mk (s.toList.map Char.toLower)

/-- Fuel-indexed worker for `pyReplace`; the fuel is the input length, which
each step consumes, so it never runs out. -/
def replaceCharsAux (old new : List Char) : Nat → List Char → List Char
  | _, [] => []
  | 0, l => l
  | fuel + 1, c :: rest =>
      if startsWithChars old (c :: rest) && !old.isEmpty then
        new ++ replaceCharsAux old new fuel ((c :: rest).drop old.length)
      else c :: replaceCharsAux old new fuel rest

/-- Python `s.replace(old, new)`: replace every (non-overlapping, leftmost)
occurrence. -/
def pyReplace (s old new : String) : String :=
  String.mk (replaceCharsAux old.toList new.toList s.toList.length s.toList)

/-- Split a character list at every occurrence of `sep`. -/
def splitOnChar (sep : Char) : List Char → List (List Char)
  | [] => [[]]
  | c :: rest =>
      if c == sep then [] :: splitOnChar sep rest
      else
        match splitOnChar sep rest with
        | [] => [[c]]
        | h :: t => (c :: h) :: t

/-- Python `"sep".join(parts)` at the character-list level. -/
def intercalateChars (sep : List Char) : List (List Char) → List Char
  | [] => []
  | [x] => x
  | x :: y :: rest => x ++ sep ++ intercalateChars sep (y :: rest)

/-- The decimal value of a digit run, i.e. Python `int` on a digit string. -/
def natOfDigits (l : List Char) : Nat :=
  l.foldl (fun acc c => acc * 10 + (c.toNat - 48)) 0

/-- Insert into a `le`-sorted list, keeping it sorted. -/
def insertSorted {α : Type} (le : α → α → Bool) (a : α) : List α → List α
  | [] => [a]
  | b :: l => if le a b then a :: b :: l else b :: insertSorted le a l

/-- Insertion sort by the boolean relation `le`. -/
def sortBy {α : Type} (le : α → α → Bool) : List α → List α
  | [] => []
  | a :: l => insertSorted le a (sortBy le l)

/-- Remove duplicates (keeping, for each value, its last occurrence); the
model of Python `set(l)` as a list, order being irrelevant after sorting. -/
def removeDup {α : Type} [DecidableEq α] : List α → List α
  | [] => []
  | a :: l =>
      let r := removeDup l
      if a ∈ r then r else a :: r

/-- Python `sorted(list(set(l)))` for a list of ints (`main.py` line 103). -/
def pySortedSetNat (l : List Nat) : List Nat :=
  sortBy (fun a b => decide (a ≤ b)) (removeDup l)

/-- Python `sorted(list(set(l)))` for strings (`main.py` line 170); the
comparison is lexicographic on characters, as in Python. -/
def charsLe : List Char → List Char → Bool
  | [], _ => true
  | _ :: _, [] => false
  | a :: as, b :: bs => if a == b then charsLe as bs else decide (a < b)

def strLe (a b : String) : Bool := charsLe a.toList b.toList

def pySortedSetStr (l : List String) : List String := sortBy strLe (removeDup l)

/-! ### Data model: documents, segments, the CLI filter -/

/-- Command-line selection filter: the `--index`, `--start`, `--end` flags of
`get_args` (`main.py` lines 58-60); `none` means the flag was not given.
`end_` stands for the Python attribute `args.end`. -/
structure Args where
  index : Option Int
  start : Option Int
  end_ : Option Int
deriving DecidableEq

/-- Translation of `is_in_range` (`main.py` lines 74-79): three guarded
early returns of `False`, then `True`. -/
def is_in_range (idx : Int) (args : Args) : Bool :=
  if (match args.index with | some v => idx != v | none => false) then false
  else if (match args.start with | some v => decide (idx < v) | none => false) then false
  else if (match args.end_ with | some v => decide (v < idx) | none => false) then false
  else true

/-- One entry of the table of contents as returned by `doc.get_toc()`:
a `[level, title, page]` triple with a 1-based page number. -/
structure TocEntry where
  level : Int
  title : String
  page : Int
deriving DecidableEq, Inhabited

/-- A source document: the extractable text of each page, in order, plus its
table of contents. `pages.length` plays the role of `len(doc)`. -/
structure Doc where
  pages : List String
  toc : List TocEntry
deriving DecidableEq

/-- One segment dict produced by `get_ranges` (`main.py`), with keys
`index`, `title`, `start`, `end` (zero-based inclusive page range). -/
structure Segment where
  index : Int
  title : String
  start_page : Int
  end_page : Int
deriving DecidableEq, Inhabited

/-- The `--mode` flag: chunking strategy of `get_ranges`. -/
inductive Mode where
  | bookmark | chapter | full
deriving DecidableEq

/-! ### The Range Resolver: `get_ranges` -/

/-- The test `page.search_for("Chapter") or page.search_for("CHAPTER")`
(`main.py` line 98), with `search_for` modelled as substring search on the
page's text. -/
def pageHasChapterMarker (pageText : String) : Bool :=
  containsSub "Chapter".toList pageText.toList ||
    containsSub "CHAPTER".toList pageText.toList

/-- The `chapters` list built by the page scan of the chapter branch
(`main.py` lines 95-99): 0-based page numbers whose text contains the marker,
collected in ascending page order. -/
def chapterHits (pages : List String) : List Nat :=
  (List.range pages.length).filter (fun p => pageHasChapterMarker (pages.getD p ""))

/-- The loop of the bookmark branch of `get_ranges` (`main.py` lines 90-93):
`i` is the loop counter (0-based), `docLen` is `len(doc)`. For entry `i` the
stored range is `start = page - 1` and `end = end_page - 1`, where `end_page`
is the next entry's page minus one, or `len(doc)` for the last entry. -/
def bookmarkRanges (docLen : Int) : Int → List TocEntry → List Segment
  | i, [e] => [⟨i + 1, e.title, e.page - 1, docLen - 1⟩]
  | i, e :: e2 :: rest =>
      ⟨i + 1, e.title, e.page - 1, e2.page - 2⟩ ::
        bookmarkRanges docLen (i + 1) (e2 :: rest)
  | _, [] => []

/-- The loop of the chapter branch of `get_ranges` (`main.py` lines 104-107)
over `unique_chapters`: each marker page starts a segment that runs to just
before the next marker page, or to the last page for the final one. -/
def chapterRanges (docLen : Int) : Int → List Nat → List Segment
  | i, [p] => [⟨i + 1, "Chapter_" ++ toString (i + 1), (p : Int), docLen - 1⟩]
  | i, p :: q :: rest =>
      ⟨i + 1, "Chapter_" ++ toString (i + 1), (p : Int), (q : Int) - 1⟩ ::
        chapterRanges docLen (i + 1) (q :: rest)
  | _, [] => []

/-- The whole-document fallback dict, appearing in three places of
`get_ranges` (`main.py` lines 88, 101, 109). -/
def fullSegment (doc : Doc) : Segment :=
  ⟨1, "Full_Document", 0, (doc.pages.length : Int) - 1⟩

/-- `get_ranges` (`main.py` lines 81-111). -/
def get_ranges (doc : Doc) (mode : Mode) : List Segment :=
  match mode with
  | .bookmark =>
      if doc.toc.isEmpty then [fullSegment doc]
      else bookmarkRanges (doc.pages.length : Int) 0 doc.toc
  | .chapter =>
      let chapters := chapterHits doc.pages
      if chapters.isEmpty then [fullSegment doc]
      else chapterRanges (doc.pages.length : Int) 0 (pySortedSetNat chapters)
  | .full => [fullSegment doc]

/-! ### Artifact naming: `sanitize`, `get_paths`, index parsing -/

/-- ASCII model of the regex class `\w` (word character). -/
def isWordChar (c : Char) : Bool := c.isAlphanum || c == '_'

/-- ASCII model of the regex class `\s` (whitespace), also the character set
stripped by Python `str.strip()`. -/
def isSpaceChar (c : Char) : Bool :=
  c == ' ' || c == '\t' || c == '\n' || c == '\r' || c == '\x0b' || c == '\x0c'

/-- Python `str.strip()`: drop leading and trailing whitespace. -/
def pyStrip (l : List Char) : List Char :=
  ((l.dropWhile isSpaceChar).reverse.dropWhile isSpaceChar).reverse

/-- `sanitize` (`main.py` lines 64-66):
`re.sub(r'[^\w\s-]', '', text).strip().replace(' ', '_')`. -/
def sanitize (text : String) : String :=
  String.mk ((pyStrip (text.toList.filter
      (fun c => isWordChar c || isSpaceChar c || c == '-'))).map
    (fun c => if c == ' ' then '_' else c))

/-- Python `os.path.basename` (POSIX): the part after the last slash. -/
def basename (p : String) : String :=
  String.mk ((splitOnChar '/' p.toList).getLastD [])

/-- Python `s.rsplit('.', 1)[0]`: everything before the last dot, or the
whole string when there is no dot. -/
def rsplitDot (s : String) : String :=
  match s.toList.reverse.dropWhile (fun c => !(c == '.')) with
  | [] => s
  | _ :: t => String.mk t.reverse

/-- `get_paths` (`main.py` lines 68-72). -/
def get_paths (input_path : String) : String × String :=
  let base := rsplitDot (basename input_path)
  let folder_name := sanitize base
  ("sections_" ++ folder_name, "translations_" ++ folder_name)

/-- The result of `re.match(r'^(\d+)_', name)` (`main.py` lines 147, 173):
the leading digit run, provided it is nonempty and immediately followed by an
underscore; `none` when the regex does not match. -/
def idxMatch (s : String) : Option (List Char) :=
  let ds := s.toList.takeWhile Char.isDigit
  if ds.isEmpty then none
  else if (s.toList.drop ds.length).head? == some '_' then some ds else none

/-- `idx = int(match.group(1)) if match else 0` (`main.py` lines 148, 174). -/
def parseIdx (s : String) : Int :=
  match idxMatch s with
  | some ds => (natOfDigits ds : Int)
  | none => 0

/-! ### Filesystem model -/

/-- A file's content: a sliced sub-document (its page texts) or plain text. -/
inductive FileData where
  | pdf (pages : List String)
  | text (s : String)
deriving DecidableEq

/-- Filesystem model: association list from full path to content (later
entries shadow earlier ones) plus the list of directories that exist.
Files of the current directory are stored under keys of the form `./name`,
matching `os.path.join(".", name)`. -/
structure FS where
  files : List (String × FileData)
  dirs : List String
deriving DecidableEq

/-- Content of the file at path `p`, if it exists. -/
def fsGet (st : FS) (p : String) : Option FileData :=
  (st.files.find? (fun kv => kv.1 == p)).map (fun kv => kv.2)

/-- `os.path.exists` on a file path. -/
def fsExists (st : FS) (p : String) : Bool := (fsGet st p).isSome

/-- Writing (or overwriting) the file at path `p`. -/
def fsWrite (st : FS) (p : String) (d : FileData) : FS :=
  { st with files := (p, d) :: st.files }

/-- `os.path.exists` on a directory path. -/
def dirExists (st : FS) (d : String) : Bool := st.dirs.contains d

/-- `if not os.path.exists(folder): os.makedirs(folder)` (`main.py` lines
127, 163). -/
def mkdirIfMissing (st : FS) (d : String) : FS :=
  if dirExists st d then st else { st with dirs := d :: st.dirs }

/-- Model of `sorted(os.listdir(folder))`: names (containing no slash) of the
files directly under `folder`, sorted and without duplicates. -/
def listDir (st : FS) (folder : String) : List String :=
  pySortedSetStr (st.files.filterMap (fun kv =>
    if strStartsWith kv.1 (folder ++ "/") then
      let n := kv.1.toList.drop (folder ++ "/").toList.length
      if n.contains '/' then none else some (String.mk n)
    else none))

/-! ### Pipeline Controller: the three actions of `main` -/

/-- Python `f"{n:02d}"`: zero-pad to width two. -/
def fmt02 (n : Int) : String :=
  let s := toString n
  if s.toList.length < 2 then "0" ++ s else s

/-- Target path of a sliced segment (`main.py` line 131):
`os.path.join(sec_folder, f"{index:02d}_{sanitize(title)}.pdf")`. -/
def slicePath (secFolder : String) (item : Segment) : String :=
  secFolder ++ "/" ++ fmt02 item.index ++ "_" ++ sanitize item.title ++ ".pdf"

/-- `new_doc.insert_pdf(doc, from_page=item['start'], to_page=item['end'])`
(`main.py` line 135): the page texts of the sliced sub-document. -/
def pageSlice (pages : List String) (a b : Int) : List String :=
  (pages.take (b.toNat + 1)).drop a.toNat

/-- `"\n".join([p.get_text() for p in doc])` (`main.py` line 155,
`extract_all.py` line 46). -/
def joinPages (pages : List String) : String :=
  String.mk (intercalateChars ['\n'] (pages.map String.toList))

/-- Body of the slice loop for one segment (`main.py` lines 129-137):
skip when filtered out, skip silently when the target exists, otherwise
print and write the sliced document. -/
def sliceStep (args : Args) (doc : Doc) (secFolder : String)
    (acc : FS × List String) (item : Segment) : FS × List String :=
  if ¬ is_in_range item.index args then acc
  else
    let path := slicePath secFolder item
    if fsExists acc.1 path then acc
    else
      (fsWrite acc.1 path (.pdf (pageSlice doc.pages item.start_page item.end_page)),
       acc.2 ++ ["Slicing index " ++ toString item.index ++ "..."])

/-- ACTION: SLICE (`main.py` lines 125-140). Returns the new filesystem and
the printed lines. -/
def main_slice (args : Args) (input : String) (doc : Doc)
    (ranges : List Segment) (secFolder : String) (st : FS) : FS × List String :=
  if strEndsWith (strToLower input) ".pdf" then
    ranges.foldl (sliceStep args doc secFolder) (mkdirIfMissing st secFolder, [])
  else (st, ["Notice: Slicing skipped (only supported for PDF inputs)."])

/-- Body of the extract loop for one sliced PDF (`main.py` lines 146-157):
derive the index from the name, apply the filter, skip when the text artifact
exists, otherwise extract the page texts joined by newlines. A listed file
that is missing or is not a PDF leaves the state unchanged (in the source,
`fitz.open` would raise there; the case is unreachable in actual runs). -/
def extractStep (args : Args) (secFolder : String)
    (acc : FS × List String) (pdf_name : String) : FS × List String :=
  let idx := parseIdx pdf_name
  if ¬ is_in_range idx args then acc
  else
    let txt_path := secFolder ++ "/" ++ pyReplace pdf_name ".pdf" ".txt"
    if fsExists acc.1 txt_path then acc
    else
      match fsGet acc.1 (secFolder ++ "/" ++ pdf_name) with
      | some (.pdf pages) =>
          (fsWrite acc.1 txt_path (.text (joinPages pages)),
           acc.2 ++ ["Extracting text for index " ++ toString idx ++ "..."])
      | _ => acc

/-- ACTION: EXTRACT (`main.py` lines 143-159). When the sections folder is
missing, a notice is printed unless the input name ends in `.txt`. -/
def main_extract (args : Args) (input : String) (secFolder : String)
    (st : FS) : FS × List String :=
  if dirExists st secFolder then
    let pdfs := (listDir st secFolder).filter (fun f => strEndsWith f ".pdf")
    pdfs.foldl (extractStep args secFolder) (st, [])
  else if ¬ strEndsWith (strToLower input) ".txt" then
    (st, ["Folder " ++ secFolder ++ " not found. Please run with '--action slice' first."])
  else (st, [])

/-- `extract_all` (`extract_all.py` lines 22-54): fixed folder `sections`,
no selection filter, and an explicit skip message for existing text files. -/
def extract_all (st : FS) : FS × List String :=
  if dirExists st "sections" then
    ((listDir st "sections").filter (fun f => strEndsWith f ".pdf")).foldl
      (fun acc filename =>
        let pdf_path := "sections/" ++ filename
        let txt_path := pyReplace pdf_path ".pdf" ".txt"
        if ¬ fsExists acc.1 txt_path then
          match fsGet acc.1 pdf_path with
          | some (.pdf pages) =>
              (fsWrite acc.1 txt_path (.text (joinPages pages)),
               acc.2 ++ ["Extracting: " ++ filename])
          | _ => acc
        else (acc.1, acc.2 ++ ["Skipping (already exists): " ++ basename txt_path]))
      (st, [])
  else (st, ["Sections folder not found. Please run main.py once to slice the PDF."])

/-! ### The translate stage -/

/-- Payload submitted to `generate_content` (`main.py` line 197): the refined
text, or the uploaded sliced document. -/
inductive Payload where
  | text (s : String)
  | file (pages : List String)

/-- Model of the Gemini client: `uploadStates path` is the sequence of
`.state` values a file upload goes through (`files.upload`, then repeated
`files.get`); `generate payload prompt` is `models.generate_content`, which
either returns response text or raises (modelled as `Except.error` carrying
the exception message). -/
structure GenAI where
  uploadStates : String → List String
  generate : Payload → String → Except String String

/-- The polling loop (`main.py` lines 190-192): the handle state once it
first differs from `PROCESSING`; `none` models a loop that never exits. -/
def pollStates : List String → Option String
  | [] => none
  | s :: rest => if s == "PROCESSING" then pollStates rest else some s

/-- The `STYLE_GUIDE` constant (`main.py` lines 43-47). -/
def STYLE_GUIDE : String :=
  "\n- Tone: Professional and serious.\n- Structure: Keep sentence lengths as close to the original as possible.\n- Constraint: Do not add, remove, or summarize sentences.\n"

/-- The prompt built at `main.py` line 196. -/
def mkPrompt (lang : String) : String :=
  "Translate the following to " ++ lang ++ ".\n\nSTYLE GUIDE:\n" ++ STYLE_GUIDE ++
    "\n\nCONTENT:\n"

/-- Reading a path as plain text (`open(txt_path).read()`); the non-text
cases are unreachable totalizations. -/
def readTextData : Option FileData → String
  | some (.text s) => s
  | some (.pdf pages) => joinPages pages
  | none => ""

/-- The pages of a path holding a sliced document; the non-pdf cases are
unreachable totalizations. -/
def readPdfData : Option FileData → List String
  | some (.pdf pages) => pages
  | some (.text s) => [s]
  | none => []

/-- State threaded through the translate stage: the filesystem, the lines
printed to the operator, the persistent log (`translation_progress.log`)
entries, and the paths uploaded to the remote service. -/
structure TransState where
  st : FS
  prints : List String
  log : List String
  uploads : List String

/-- Body of the translate loop for one candidate base name (`main.py` lines
172-204): derive the index, apply the filter, skip when the translated
artifact exists; otherwise prefer the text payload, fall back to uploading
and polling the sliced document, and skip when neither exists. Success
writes the response and an INFO log line; an exception from the service is
caught, printed and logged as an ERROR line, writing no artifact. -/
def translateStep (g : GenAI) (args : Args) (lang scan out : String)
    (acc : TransState) (base : String) : TransState :=
  let idx := parseIdx base
  if ¬ is_in_range idx args then acc
  else
    let target_path := out ++ "/" ++ base ++ ".txt"
    if fsExists acc.st target_path then acc
    else
      let acc := { acc with prints := acc.prints ++
        ["Translating index " ++ toString idx ++ " (" ++ base ++ ")..."] }
      let txt_path := scan ++ "/" ++ base ++ ".txt"
      let pdf_path := scan ++ "/" ++ base ++ ".pdf"
      if fsExists acc.st txt_path then
        match g.generate (.text (readTextData (fsGet acc.st txt_path))) (mkPrompt lang) with
        | .ok resp =>
            { acc with st := fsWrite acc.st target_path (.text resp),
                       log := acc.log ++
                         ["INFO: Successfully translated index " ++ toString idx ++ ": " ++ base] }
        | .error e =>
            { acc with prints := acc.prints ++ ["Error on " ++ base ++ ": " ++ e],
                       log := acc.log ++ ["ERROR: Error on " ++ base ++ ": " ++ e] }
      else if fsExists acc.st pdf_path then
        let acc := { acc with uploads := acc.uploads ++ [pdf_path] }
        match pollStates (g.uploadStates pdf_path) with
        | none => acc
        | some _ =>
            match g.generate (.file (readPdfData (fsGet acc.st pdf_path))) (mkPrompt lang) with
            | .ok resp =>
                { acc with st := fsWrite acc.st target_path (.text resp),
                           log := acc.log ++
                             ["INFO: Successfully translated index " ++ toString idx ++ ": " ++ base] }
            | .error e =>
                { acc with prints := acc.prints ++ ["Error on " ++ base ++ ": " ++ e],
                           log := acc.log ++ ["ERROR: Error on " ++ base ++ ": " ++ e] }
      else acc

/-- The candidate discovery and loop of the translate stage over a given
folder (`main.py` lines 169-204). -/
def translateScan (g : GenAI) (args : Args) (lang out scan : String)
    (ts : TransState) : TransState :=
  let files := (listDir ts.st scan).filter
    (fun f => strEndsWith f ".pdf" || strEndsWith f ".txt")
  let base_names := pySortedSetStr (files.map rsplitDot)
  base_names.foldl (translateStep g args lang scan out) ts

/-- ACTION: TRANSLATE (`main.py` lines 162-204): create the output folder if
missing, then scan the sections folder when it exists, else the current
directory. -/
def main_translate (g : GenAI) (args : Args) (lang secFolder outFolder : String)
    (ts : TransState) : TransState :=
  let ts1 : TransState := { ts with st := mkdirIfMissing ts.st outFolder }
  let scan := if dirExists ts1.st secFolder then secFolder else "."
  translateScan g args lang outFolder scan ts1

/-! ### Properties checked on segment lists, and concrete documents -/

/-- The shape the specification compares segments by: index and page span. -/
def segShape (s : Segment) : Int × Int × Int := (s.index, s.start_page, s.end_page)

/-- Decidable check that a segment list exactly tiles the page interval
`[lo, hi]`: each segment is nonempty (`start_page ≤ end_page`), the first
starts at `lo`, each next segment starts right after the previous one ends,
and the last ends at `hi`. -/
def isPartitionFrom (lo hi : Int) : List Segment → Bool
  | [] => false
  | r :: rest =>
      r.start_page == lo && decide (r.start_page ≤ r.end_page) &&
      (match rest with
       | [] => r.end_page == hi
       | _ :: _ => isPartitionFrom (r.end_page + 1) hi rest)

/-- Check that a segment list is a partition of the whole document's pages
`[0, docLen - 1]`. -/
def isPartition (docLen : Int) (l : List Segment) : Bool :=
  isPartitionFrom 0 (docLen - 1) l

/-- Strict monotonicity of the 1-based page numbers along the table of
contents. -/
def tocPagesMono : List TocEntry → Bool
  | [] => true
  | [_] => true
  | e :: e2 :: rest => decide (e.page < e2.page) && tocPagesMono (e2 :: rest)

/-- Ten-page document with table-of-contents entries at 1-based pages
1, 4 and 8 (the specification's concrete scenario). -/
def cDoc10 : Doc :=
  ⟨List.replicate 10 "", [⟨1, "A", 1⟩, ⟨1, "B", 4⟩, ⟨1, "C", 8⟩]⟩

/-- Ten-page document whose first table-of-contents entry starts at 1-based
page 3 (so zero-based page 2): pages 0 and 1 belong to no segment. -/
def c1Doc : Doc :=
  ⟨List.replicate 10 "", [⟨1, "A", 3⟩, ⟨1, "B", 8⟩]⟩

/-- Ten-page document with a single table-of-contents entry at 1-based
page 5. -/
def c5Doc : Doc :=
  ⟨List.replicate 10 "", [⟨1, "Intro", 5⟩]⟩

/-- Single-page-text document used to exercise the chapter branch: markers
on pages 0 and 2. -/
def cChapDoc : Doc := ⟨["Chapter 1 text", "middle", "CHAPTER 2", "end"], []⟩

/-- One-page document with no table of contents. -/
def cFullDoc : Doc := ⟨["only page"], []⟩

/-- Two-page document with a single table-of-contents entry at page 1. -/
def c5DocA : Doc := ⟨["a", "b"], [⟨1, "Intro", 1⟩]⟩

/-- Two-page document whose only marker hit is on page 0. -/
def c5DocB : Doc := ⟨["Chapter one", "plain"], []⟩

/-- Empty selection filter: no `--index`, `--start` or `--end`. -/
def argsNone : Args := ⟨none, none, none⟩

/-- A client whose uploads become ACTIVE after one poll and whose
translation succeeds deterministically. -/
def gOk : GenAI :=
  { uploadStates := fun _ => ["PROCESSING", "ACTIVE"],
    generate := fun p _ =>
      match p with
      | .text s => .ok ("T:" ++ s)
      | .file _ => .ok "PDFRESP" }

/-- A client whose translation call always raises. -/
def gErr : GenAI :=
  { uploadStates := fun _ => ["ACTIVE"],
    generate := fun _ _ => .error "boom" }

/-- Sections folder holding a sliced document and a manually refined text
artifact for segment 1. -/
def c2FS : FS :=
  ⟨[("sections_b/01_a.pdf", .pdf ["new content"]),
    ("sections_b/01_a.txt", .text "manual edit")], ["sections_b"]⟩

/-- Translate state whose output folder already holds segment 1's
translation. -/
def c2TS : TransState :=
  ⟨⟨[("translations_b/01_a.txt", .text "done")], []⟩, [], [], []⟩

/-- Translate state with both payload artifacts present for base `01_a`. -/
def c6TS : TransState :=
  ⟨⟨[("s/01_a.txt", .text "refined"), ("s/01_a.pdf", .pdf ["raw"])], []⟩, [], [], []⟩

/-- Translate state with only the sliced document for base `01_b`. -/
def c6TSb : TransState := ⟨⟨[("s/01_b.pdf", .pdf ["raw"])], []⟩, [], [], []⟩

/-- Translate state with no artifact at all. -/
def c6TSc : TransState := ⟨⟨[], []⟩, [], [], []⟩

/-- Filesystem with one refined text in the current directory and no
sections folder. -/
def c8FS : FS := ⟨[("./01_a.txt", .text "hi")], []⟩

/-! ### Helper lemmas -/

/-- Element-wise characterization of the bookmark-branch loop: entry `i` of
the table of contents produces segment `i` with index `k + i + 1`, start
`page - 1`, and end one page before the next entry's start (or `docLen - 1`
for the final entry). -/
theorem bookmarkRanges_get? (n : Int) (toc : List TocEntry) :
    ∀ (k : Int) (i : Nat) (e : TocEntry), toc.get? i = some e →
      (bookmarkRanges n k toc).get? i =
        some ⟨k + (i : Int) + 1, e.title, e.page - 1,
          match toc.get? (i + 1) with
          | some e2 => e2.page - 2
          | none => n - 1⟩ := by
  induction toc with
  | nil => intro k i e h; simp at h
  | cons a rest ih =>
    intro k i e h
    cases rest with
    | nil =>
      cases i with
      | zero =>
        simp only [List.get?_cons_zero, Option.some.injEq] at h
        subst h
        simp [bookmarkRanges]
      | succ j => simp at h
    | cons b rest2 =>
      cases i with
      | zero =>
        simp only [List.get?_cons_zero, Option.some.injEq] at h
        subst h
        simp [bookmarkRanges]
      | succ j =>
        have h' : (b :: rest2).get? j = some e := by simpa using h
        have hrec := ih (k + 1) j e h'
        show (bookmarkRanges n (k + 1) (b :: rest2)).get? j = _
        rw [hrec]
        have : (a :: b :: rest2).get? (j + 1 + 1) = (b :: rest2).get? (j + 1) := rfl
        rw [this]
        congr 2
        push_cast
        ring

/-! ### Claim theorems -/

/-- C1 counterexample: for a 10-page document whose first bookmark is at
1-based page 3, bookmark mode yields the segments [2,6], [7,9]: the first
segment does not start at page 0, so pages 0-1 are covered by no segment and
the produced list is not a partition of the document's pages. -/
theorem c1_counterexample :
    get_ranges c1Doc .bookmark = [⟨1, "A", 2, 6⟩, ⟨2, "B", 7, 9⟩] ∧
    isPartition ((c1Doc.pages.length : Int)) (get_ranges c1Doc .bookmark) = false := by
  decide

/-- C3: for each table-of-contents entry i (0-based position, 1-based pages),
bookmark mode produces the segment with index i+1, the entry's title,
zero-based start equal to the entry's page minus one, and zero-based end one
page before the next entry's start (that is, next page minus two) or the
document's last page for the final entry; concretely, a 10-page document
with entries at 1-based pages 1, 4, 8 yields exactly the segments [0,2],
[3,6], [7,9] with indices 1, 2, 3. -/
theorem c3_bookmark_segments (doc : Doc) (i : Nat) (e : TocEntry)
    (h : doc.toc.get? i = some e) :
    (get_ranges doc .bookmark).get? i =
      some ⟨(i : Int) + 1, e.title, e.page - 1,
        match doc.toc.get? (i + 1) with
        | some e2 => e2.page - 2
        | none => (doc.pages.length : Int) - 1⟩ ∧
    get_ranges cDoc10 .bookmark =
      [⟨1, "A", 0, 2⟩, ⟨2, "B", 3, 6⟩, ⟨3, "C", 7, 9⟩] := by
  constructor
  · have hne : doc.toc.isEmpty = false := by
      cases htoc : doc.toc with
      | nil => rw [htoc] at h; simp at h
      | cons x xs => simp
    have hrec := bookmarkRanges_get? (doc.pages.length : Int) doc.toc 0 i e h
    simp only [get_ranges, hne, Bool.false_eq_true, if_false]
    rw [hrec]
    congr 2
    ring
  · decide

/-- C3 witness: the characterization applied to the first entry of the
specification's concrete 10-page scenario. -/
theorem c3_witness :
    (get_ranges cDoc10 .bookmark).get? 0 = some ⟨1, "A", 0, 2⟩ ∧
    get_ranges cDoc10 .bookmark =
      [⟨1, "A", 0, 2⟩, ⟨2, "B", 3, 6⟩, ⟨3, "C", 7, 9⟩] := by
  have h := c3_bookmark_segments cDoc10 0 ⟨1, "A", 1⟩ (by decide)
  refine ⟨?_, h.2⟩
  rw [h.1]
  decide

/-- C4 counterexample: with `--index 3` set, segment 3 itself is rejected
when `--start` is 5, so the start/end bounds are not ignored when `--index`
is set — the result depends on `--start`. -/
theorem c4_counterexample :
    is_in_range 3 ⟨some 3, some 5, none⟩ = false ∧
    is_in_range 3 ⟨some 3, none, none⟩ = true := by decide

/-- C4 amended: a segment index passes the filter iff it equals `--index`
whenever that flag is set, AND lies within the inclusive [start, end] bounds
(each bound independently optional); the three flags intersect, so `--index`
does not override `--start`/`--end`. With no flag set everything passes, and
when `--index` is set only that index can ever pass. -/
theorem c4_amended_filter (idx : Int) (args : Args) :
    is_in_range idx args = true ↔
      ((∀ v, args.index = some v → idx = v) ∧
       (∀ v, args.start = some v → v ≤ idx) ∧
       (∀ v, args.end_ = some v → idx ≤ v)) := by
  rcases args with ⟨i, s, e⟩
  cases i <;> cases s <;> cases e <;>
    simp [is_in_range]

/-- C4 witness: a concrete index accepted via the amended characterization. -/
theorem c4_witness : is_in_range 2 ⟨none, some 2, some 4⟩ = true := by
  refine (c4_amended_filter 2 ⟨none, some 2, some 4⟩).mpr ⟨?_, ?_, ?_⟩ <;>
    intro v hv <;> cases hv <;> omega

/-- C9: the sections and translations folder names are a function of the
sanitized, extension-stripped basename of the input path alone, so any two
input paths whose stripped basenames sanitize to the same string are read
from and written to the same two artifact folders in every stage. -/
theorem c9_folder_identity (p1 p2 : String)
    (h : sanitize (rsplitDot (basename p1)) = sanitize (rsplitDot (basename p2))) :
    get_paths p1 =
      ("sections_" ++ sanitize (rsplitDot (basename p1)),
       "translations_" ++ sanitize (rsplitDot (basename p1))) ∧
    get_paths p1 = get_paths p2 := by
  refine ⟨rfl, ?_⟩
  simp only [get_paths, h]

/-- C9 witness: two paths differing in directory, extension and
sanitized-away characters share both folders. -/
theorem c9_witness :
    sanitize (rsplitDot (basename "docs/My Book.pdf")) =
      sanitize (rsplitDot (basename "My, Book!.txt")) ∧
    get_paths "docs/My Book.pdf" = get_paths "My, Book!.txt" :=
  ⟨by decide, (c9_folder_identity "docs/My Book.pdf" "My, Book!.txt" (by decide)).2⟩

/-- C10: an artifact name that does not begin with one or more digits
followed by an underscore is assigned index 0 by the discovery regex; that
index passes the empty filter, is excluded whenever `--index` is set to a
nonzero value, and is excluded whenever `--start` is at least 1. -/
theorem c10_untagged_zero (name : String) (hm : idxMatch name = none) :
    parseIdx name = 0 ∧
    is_in_range (parseIdx name) ⟨none, none, none⟩ = true ∧
    (∀ k s e, k ≠ 0 → is_in_range (parseIdx name) ⟨some k, s, e⟩ = false) ∧
    (∀ s e, 1 ≤ s → is_in_range (parseIdx name) ⟨none, some s, e⟩ = false) := by
  have h0 : parseIdx name = 0 := by simp [parseIdx, hm]
  refine ⟨h0, ?_, ?_, ?_⟩
  · simp [h0, is_in_range]
  · intro k s e hk
    have hbne : ((0 : Int) != k) = true := by
      simpa [bne_iff_ne] using Ne.symm hk
    simp [h0, is_in_range, hbne]
  · intro s e hs
    have hlt : decide ((0 : Int) < s) = true := by
      simp only [decide_eq_true_eq]
      omega
    simp [h0, is_in_range, hlt]

/-- C10 witness: the name `Intro` has no digit tag, gets index 0, passes the
empty filter and is excluded by `--index 3` and by `--start 1`. -/
theorem c10_witness :
    idxMatch "Intro" = none ∧ parseIdx "Intro" = 0 ∧
    is_in_range (parseIdx "Intro") ⟨none, none, none⟩ = true ∧
    is_in_range (parseIdx "Intro") ⟨some 3, none, none⟩ = false ∧
    is_in_range (parseIdx "Intro") ⟨none, some 1, none⟩ = false := by
  have h := c10_untagged_zero "Intro" (by decide)
  exact ⟨by decide, h.1, h.2.1, h.2.2.1 3 none none (by decide),
    h.2.2.2 1 none (by decide)⟩

/-- C5 counterexample: a single table-of-contents entry at 1-based page 5 of
a 10-page document yields the single segment [4,9] — not the full-span shape
[0,9] of the no-toc fallback, so the single-entry case does not match the
fallback in shape. -/
theorem c5_counterexample :
    (get_ranges c5Doc .bookmark).map segShape = [(1, 4, 9)] ∧
    (get_ranges c5Doc .bookmark).map segShape ≠
      (get_ranges c5Doc .full).map segShape ∧
    (get_ranges c5Doc .full).map segShape = [(1, 0, 9)] := by decide

/-- The bookmark-branch loop always returns a nonempty list on a nonempty
table of contents. -/
theorem bookmarkRanges_cons (n i : Int) (e : TocEntry) (l : List TocEntry) :
    ∃ s t, bookmarkRanges n i (e :: l) = s :: t := by
  cases l with
  | nil => exact ⟨_, _, rfl⟩
  | cons b m => exact ⟨_, _, rfl⟩

/-- The chapter-branch loop always returns a nonempty list on a nonempty
marker-page list. -/
theorem chapterRanges_cons (n i : Int) (p : Nat) (l : List Nat) :
    ∃ s t, chapterRanges n i (p :: l) = s :: t := by
  cases l with
  | nil => exact ⟨_, _, rfl⟩
  | cons q m => exact ⟨_, _, rfl⟩

/-- When the table of contents has strictly increasing pages bounded by the
page count, the bookmark-branch segments tile the interval from the first
entry's zero-based page to the last page. -/
theorem bookmarkRanges_partitionFrom (n : Int) :
    ∀ (rest : List TocEntry) (e : TocEntry) (i : Int),
      tocPagesMono (e :: rest) = true →
      ((e :: rest).all fun t => decide (t.page ≤ n)) = true →
      isPartitionFrom (e.page - 1) (n - 1) (bookmarkRanges n i (e :: rest)) = true := by
  intro rest
  induction rest with
  | nil =>
    intro e i _ hall
    simp only [List.all_cons, List.all_nil, Bool.and_true, decide_eq_true_eq] at hall
    simp [bookmarkRanges, isPartitionFrom]
    omega
  | cons e2 rest ih =>
    intro e i hmono hall
    have hlt : e.page < e2.page := by
      simp only [tocPagesMono, Bool.and_eq_true, decide_eq_true_eq] at hmono
      exact hmono.1
    have hmono' : tocPagesMono (e2 :: rest) = true := by
      simp only [tocPagesMono, Bool.and_eq_true] at hmono
      exact hmono.2
    have hall' : ((e2 :: rest).all fun t => decide (t.page ≤ n)) = true := by
      simp only [List.all_cons, Bool.and_eq_true] at hall ⊢
      exact hall.2
    obtain ⟨s, t, hst⟩ := bookmarkRanges_cons n (i + 1) e2 rest
    have hIH := ih e2 (i + 1) hmono' hall'
    rw [hst] at hIH
    show isPartitionFrom (e.page - 1) (n - 1)
      (⟨i + 1, e.title, e.page - 1, e2.page - 2⟩ ::
        bookmarkRanges n (i + 1) (e2 :: rest)) = true
    rw [hst]
    have hunfold : isPartitionFrom (e.page - 1) (n - 1)
        (⟨i + 1, e.title, e.page - 1, e2.page - 2⟩ :: s :: t) =
        ((e.page - 1 : Int) == e.page - 1 &&
          decide ((e.page - 1 : Int) ≤ e2.page - 2) &&
          isPartitionFrom (e2.page - 2 + 1) (n - 1) (s :: t)) := rfl
    have harith : e2.page - 2 + 1 = e2.page - 1 := by ring
    rw [hunfold, harith, hIH]
    simp only [beq_self_eq_true, Bool.true_and, Bool.and_true, decide_eq_true_eq]
    omega

/-- When the marker pages are strictly increasing and below the page count,
the chapter-branch segments tile the interval from the first marker page to
the last page. -/
theorem chapterRanges_partitionFrom (n : Int) :
    ∀ (l : List Nat) (p : Nat) (i : Int),
      List.Chain' (· < ·) (p :: l) →
      (∀ q ∈ p :: l, (q : Int) < n) →
      isPartitionFrom (p : Int) (n - 1) (chapterRanges n i (p :: l)) = true := by
  intro l
  induction l with
  | nil =>
    intro p i _ hb
    have hpn : (p : Int) < n := hb p (by simp)
    simp [chapterRanges, isPartitionFrom]
    omega
  | cons q l ih =>
    intro p i hch hb
    have hpq : p < q := (List.chain'_cons.mp hch).1
    have hch' : List.Chain' (· < ·) (q :: l) := (List.chain'_cons.mp hch).2
    have hb' : ∀ r ∈ q :: l, (r : Int) < n := fun r hr => hb r (List.mem_cons_of_mem _ hr)
    obtain ⟨s, t, hst⟩ := chapterRanges_cons n (i + 1) q l
    have hIH := ih q (i + 1) hch' hb'
    rw [hst] at hIH
    show isPartitionFrom (p : Int) (n - 1)
      (⟨i + 1, "Chapter_" ++ toString (i + 1), (p : Int), (q : Int) - 1⟩ ::
        chapterRanges n (i + 1) (q :: l)) = true
    rw [hst]
    have hunfold : isPartitionFrom (p : Int) (n - 1)
        (⟨i + 1, "Chapter_" ++ toString (i + 1), (p : Int), (q : Int) - 1⟩ :: s :: t) =
        (((p : Int)) == (p : Int) && decide ((p : Int) ≤ (q : Int) - 1) &&
          isPartitionFrom ((q : Int) - 1 + 1) (n - 1) (s :: t)) := rfl
    have harith : (q : Int) - 1 + 1 = (q : Int) := by ring
    rw [hunfold, harith, hIH]
    simp only [beq_self_eq_true, Bool.true_and, Bool.and_true, decide_eq_true_eq]
    have : (p : Int) < (q : Int) := by exact_mod_cast hpq
    omega

/-- The marker-page scan produces a strictly increasing list. -/
theorem chapterHits_pairwise (pages : List String) :
    (chapterHits pages).Pairwise (· < ·) :=
  List.Pairwise.sublist (List.filter_sublist _) (List.pairwise_lt_range _)

/-- Every marker page is a valid 0-based page number. -/
theorem chapterHits_lt_length (pages : List String) :
    ∀ q ∈ chapterHits pages, q < pages.length := by
  intro q hq
  have : q ∈ List.range pages.length := List.mem_of_mem_filter hq
  exact List.mem_range.mp this

/-- `removeDup` is the identity on duplicate-free lists. -/
theorem removeDup_eq_self {α : Type} [DecidableEq α] :
    ∀ {l : List α}, l.Nodup → removeDup l = l := by
  intro l
  induction l with
  | nil => intro _; rfl
  | cons a t ih =>
    intro h
    have ht : removeDup t = t := ih (List.Nodup.of_cons h)
    have ha : a ∉ t := (List.nodup_cons.mp h).1
    simp [removeDup, ht, ha]

/-- `sortBy (· ≤ ·)` is the identity on already sorted lists of naturals. -/
theorem sortBy_eq_self_nat :
    ∀ {l : List Nat}, l.Pairwise (· ≤ ·) →
      sortBy (fun a b => decide (a ≤ b)) l = l := by
  intro l
  induction l with
  | nil => intro _; rfl
  | cons a t ih =>
    intro h
    have ht : sortBy (fun a b => decide (a ≤ b)) t = t := ih (List.Pairwise.of_cons h)
    simp only [sortBy, ht]
    cases t with
    | nil => rfl
    | cons b u =>
      have hab : a ≤ b := (List.pairwise_cons.mp h).1 b (by simp)
      simp [insertSorted, hab]

/-- Python's `sorted(list(set(l)))` is the identity on a strictly increasing
list, such as the marker-page list. -/
theorem pySortedSetNat_eq_self {l : List Nat} (h : l.Pairwise (· < ·)) :
    pySortedSetNat l = l := by
  have hnd : l.Nodup := h.imp (fun hab => Nat.ne_of_lt hab)
  have hle : l.Pairwise (· ≤ ·) := h.imp (fun hab => Nat.le_of_lt hab)
  unfold pySortedSetNat
  rw [removeDup_eq_self hnd]
  exact sortBy_eq_self_nat hle

/-- C1 amended: for a document with at least one page, full mode always
partitions the whole page set; bookmark mode does with an empty table of
contents, and with a nonempty one whose 1-based pages are strictly
increasing and bounded by the page count it tiles exactly the interval from
(first entry's page - 1) to the last page — a partition of the whole
document precisely when the first entry is at page 1; chapter mode with no
marker partitions the whole document, and with markers tiles exactly from
the first marker page to the last page — a partition of the whole document
precisely when a marker occurs on page 0. -/
theorem c1_amended_partition (doc : Doc) (hn : 1 ≤ doc.pages.length) :
    isPartition (doc.pages.length : Int) (get_ranges doc .full) = true ∧
    (doc.toc = [] →
      isPartition (doc.pages.length : Int) (get_ranges doc .bookmark) = true) ∧
    (∀ e rest, doc.toc = e :: rest → tocPagesMono doc.toc = true →
      (doc.toc.all fun t => decide (t.page ≤ (doc.pages.length : Int))) = true →
      isPartitionFrom (e.page - 1) ((doc.pages.length : Int) - 1)
          (get_ranges doc .bookmark) = true ∧
        (e.page = 1 →
          isPartition (doc.pages.length : Int) (get_ranges doc .bookmark) = true)) ∧
    (chapterHits doc.pages = [] →
      isPartition (doc.pages.length : Int) (get_ranges doc .chapter) = true) ∧
    (∀ p rest, chapterHits doc.pages = p :: rest →
      isPartitionFrom ((p : Nat) : Int) ((doc.pages.length : Int) - 1)
          (get_ranges doc .chapter) = true ∧
        (p = 0 →
          isPartition (doc.pages.length : Int) (get_ranges doc .chapter) = true)) := by
  have hfull : isPartition (doc.pages.length : Int) [fullSegment doc] = true := by
    simp only [isPartition, isPartitionFrom, fullSegment, beq_self_eq_true,
      Bool.true_and, Bool.and_true, decide_eq_true_eq]
    omega
  refine ⟨?_, ?_, ?_, ?_, ?_⟩
  · simpa [get_ranges] using hfull
  · intro htoc
    simpa [get_ranges, htoc] using hfull
  · intro e rest htoc hmono hall
    rw [htoc] at hmono hall
    have hne : doc.toc.isEmpty = false := by rw [htoc]; rfl
    have hpart := bookmarkRanges_partitionFrom (doc.pages.length : Int) rest e 0 hmono hall
    have hget : get_ranges doc .bookmark =
        bookmarkRanges (doc.pages.length : Int) 0 (e :: rest) := by
      simp [get_ranges, hne, htoc]
    constructor
    · rw [hget]; exact hpart
    · intro hp1
      rw [isPartition, hget]
      have h0 : e.page - 1 = 0 := by omega
      nth_rewrite 1 [← h0]
      exact hpart
  · intro hch
    simpa [get_ranges, hch] using hfull
  · intro p rest hch
    have hpw := chapterHits_pairwise doc.pages
    have hsorted : pySortedSetNat (chapterHits doc.pages) = chapterHits doc.pages :=
      pySortedSetNat_eq_self hpw
    have hsorted2 : pySortedSetNat (p :: rest) = p :: rest := by
      rw [← hch]
      exact hsorted
    have hget : get_ranges doc .chapter =
        chapterRanges (doc.pages.length : Int) 0 (p :: rest) := by
      simp only [get_ranges, hch, List.isEmpty_cons, Bool.false_eq_true, if_false,
        hsorted2]
    have hchain : List.Chain' (· < ·) (p :: rest) := by
      rw [← hch]
      exact List.Pairwise.chain' hpw
    have hb : ∀ q ∈ p :: rest, (q : Int) < (doc.pages.length : Int) := by
      intro q hq
      have : q < doc.pages.length := by
        apply chapterHits_lt_length doc.pages
        rw [hch]
        exact hq
      exact_mod_cast this
    have hpart := chapterRanges_partitionFrom (doc.pages.length : Int) rest p 0 hchain hb
    constructor
    · rw [hget]; exact hpart
    · intro hp0
      rw [isPartition, hget]
      have h0 : ((p : Nat) : Int) = 0 := by rw [hp0]; rfl
      nth_rewrite 1 [← h0]
      exact hpart

/-- C1 witness: the amended partition statements instantiated on concrete
documents for all five cases. -/
theorem c1_witness :
    isPartition ((cDoc10.pages.length : Int)) (get_ranges cDoc10 .full) = true ∧
    isPartition ((cFullDoc.pages.length : Int)) (get_ranges cFullDoc .bookmark) = true ∧
    isPartition ((cDoc10.pages.length : Int)) (get_ranges cDoc10 .bookmark) = true ∧
    isPartition ((cDoc10.pages.length : Int)) (get_ranges cDoc10 .chapter) = true ∧
    isPartition ((cChapDoc.pages.length : Int)) (get_ranges cChapDoc .chapter) = true := by
  have h10 := c1_amended_partition cDoc10 (by decide)
  have h1 := c1_amended_partition cFullDoc (by decide)
  have hc := c1_amended_partition cChapDoc (by decide)
  refine ⟨h10.1, h1.2.1 rfl, ?_, h10.2.2.2.1 (by decide), ?_⟩
  · exact (h10.2.2.1 ⟨1, "A", 1⟩ [⟨1, "B", 4⟩, ⟨1, "C", 8⟩] rfl (by decide) (by decide)).2 rfl
  · exact (hc.2.2.2.2 0 [2] (by decide)).2 rfl

/-- C5 amended: a single-entry table of contents and a single marker hit
both yield one segment with index 1 ending at the last page; its shape
(index, page span) equals the no-toc/no-marker fallback exactly when the
entry is at 1-based page 1, resp. the marker hit is on page 0 — which is
what the theorem instantiates: under those conditions all four code paths
produce the shape (1, 0, lastPage). -/
theorem c5_amended_degenerate (doc : Doc) :
    (∀ e, doc.toc = [e] → e.page = 1 →
      (get_ranges doc .bookmark).map segShape =
        [(1, 0, (doc.pages.length : Int) - 1)]) ∧
    (chapterHits doc.pages = [0] →
      (get_ranges doc .chapter).map segShape =
        [(1, 0, (doc.pages.length : Int) - 1)]) ∧
    (doc.toc = [] →
      (get_ranges doc .bookmark).map segShape =
        [(1, 0, (doc.pages.length : Int) - 1)]) ∧
    (get_ranges doc .full).map segShape =
      [(1, 0, (doc.pages.length : Int) - 1)] := by
  refine ⟨?_, ?_, ?_, ?_⟩
  · intro e htoc hpage
    simp [get_ranges, htoc, bookmarkRanges, segShape, hpage]
  · intro hch
    have hne : (chapterHits doc.pages).isEmpty = false := by rw [hch]; rfl
    simp only [get_ranges, hch, hne, Bool.false_eq_true, if_false]
    simp [pySortedSetNat, removeDup, sortBy, insertSorted, chapterRanges, segShape]
  · intro htoc
    simp [get_ranges, htoc, fullSegment, segShape]
  · simp [get_ranges, fullSegment, segShape]

/-- C5 witness: the degenerate single-entry and single-marker cases on
concrete two-page documents, matching the fallback shapes. -/
theorem c5_witness :
    (get_ranges c5DocA .bookmark).map segShape =
      [(1, 0, (c5DocA.pages.length : Int) - 1)] ∧
    (get_ranges c5DocB .chapter).map segShape =
      [(1, 0, (c5DocB.pages.length : Int) - 1)] ∧
    (get_ranges c5DocB .bookmark).map segShape =
      [(1, 0, (c5DocB.pages.length : Int) - 1)] ∧
    (get_ranges c5DocA .full).map segShape =
      [(1, 0, (c5DocA.pages.length : Int) - 1)] := by
  have hA := c5_amended_degenerate c5DocA
  have hB := c5_amended_degenerate c5DocB
  exact ⟨hA.1 ⟨1, "Intro", 1⟩ rfl rfl, hB.2.1 (by decide), hB.2.2.1 rfl, hA.2.2.2⟩

/-- `mkdirIfMissing` never changes file contents. -/
theorem fsGet_mkdir (st : FS) (d p : String) :
    fsGet (mkdirIfMissing st d) p = fsGet st p := by
  unfold mkdirIfMissing
  split <;> rfl

/-- Writing to an absent path preserves every present file. -/
theorem fsGet_fsWrite_preserved {st : FS} {q : String} {d : FileData}
    {p : String} {c : FileData} (hq : fsExists st q = false)
    (h : fsGet st p = some c) : fsGet (fsWrite st q d) p = some c := by
  have hqp : (q == p) = false := by
    cases hbe : (q == p) with
    | false => rfl
    | true =>
      exfalso
      have hqp' : q = p := eq_of_beq hbe
      subst hqp'
      rw [fsExists, h] at hq
      simp at hq
  simp only [fsGet, fsWrite] at h ⊢
  rw [List.find?_cons]
  simp only [hqp]
  exact h

/-- A fold whose step preserves present files preserves present files. -/
theorem foldl_preserves_fst {β : Type} (f : (FS × List String) → β → FS × List String)
    (hf : ∀ acc x {p : String} {c : FileData},
      fsGet acc.1 p = some c → fsGet (f acc x).1 p = some c) :
    ∀ (l : List β) (acc : FS × List String) {p : String} {c : FileData},
      fsGet acc.1 p = some c → fsGet (l.foldl f acc).1 p = some c := by
  intro l
  induction l with
  | nil => intro acc p c h; simpa using h
  | cons a t ih => intro acc p c h; exact ih (f acc a) (hf acc a h)

/-- The translate-state analogue of `foldl_preserves_fst`. -/
theorem foldl_preserves_ts {β : Type} (f : TransState → β → TransState)
    (hf : ∀ acc x {p : String} {c : FileData},
      fsGet acc.st p = some c → fsGet (f acc x).st p = some c) :
    ∀ (l : List β) (acc : TransState) {p : String} {c : FileData},
      fsGet acc.st p = some c → fsGet (l.foldl f acc).st p = some c := by
  intro l
  induction l with
  | nil => intro acc p c h; simpa using h
  | cons a t ih => intro acc p c h; exact ih (f acc a) (hf acc a h)

/-- The slice loop body never touches an existing file. -/
theorem sliceStep_preserves (args : Args) (doc : Doc) (secFolder : String)
    (acc : FS × List String) (item : Segment) {p : String} {c : FileData}
    (h : fsGet acc.1 p = some c) :
    fsGet (sliceStep args doc secFolder acc item).1 p = some c := by
  simp only [sliceStep]
  split
  · exact h
  · split
    · exact h
    · next hex =>
      exact fsGet_fsWrite_preserved (by simpa using hex) h

/-- The extract loop body never touches an existing file. -/
theorem extractStep_preserves (args : Args) (secFolder : String)
    (acc : FS × List String) (pdf_name : String) {p : String} {c : FileData}
    (h : fsGet acc.1 p = some c) :
    fsGet (extractStep args secFolder acc pdf_name).1 p = some c := by
  simp only [extractStep]
  split
  · exact h
  · split
    · exact h
    · next hex =>
      have hex' : fsExists acc.1
          (secFolder ++ "/" ++ pyReplace pdf_name ".pdf" ".txt") = false := by
        simpa using hex
      split
      · exact fsGet_fsWrite_preserved hex' h
      · exact h

/-- The translate loop body never touches an existing file. -/
theorem translateStep_preserves (g : GenAI) (args : Args) (lang scan out : String)
    (acc : TransState) (base : String) {p : String} {c : FileData}
    (h : fsGet acc.st p = some c) :
    fsGet (translateStep g args lang scan out acc base).st p = some c := by
  simp only [translateStep]
  split
  · exact h
  · split
    · exact h
    · next hex =>
      have hex' : fsExists acc.st (out ++ "/" ++ base ++ ".txt") = false := by
        simpa using hex
      split
      · split
        · exact fsGet_fsWrite_preserved hex' h
        · exact h
      · split
        · split
          · exact h
          · split
            · exact fsGet_fsWrite_preserved hex' h
            · exact h
        · exact h

/-- C2: for each of the three stages (and for `extract_all`), any file
present before the stage runs has the same content afterwards — in
particular an existing Extracted Text artifact survives extract even when
the Sliced Document was regenerated with different content, since the
statement holds for every filesystem containing the text artifact, whatever
the pdf artifact holds; and each per-segment loop body is the identity as
soon as its stage's target artifact exists, so no recomputation happens for
that segment. -/
theorem c2_stage_idempotent (args : Args) (input lang secFolder outFolder scan out : String)
    (doc : Doc) (ranges : List Segment) (g : GenAI) (st : FS) (ts : TransState)
    (accS accE : FS × List String) (accT : TransState)
    (item : Segment) (pdf_name base : String) (p : String) (c : FileData) :
    (fsGet st p = some c →
      fsGet (main_slice args input doc ranges secFolder st).1 p = some c) ∧
    (fsGet st p = some c →
      fsGet (main_extract args input secFolder st).1 p = some c) ∧
    (fsGet st p = some c → fsGet (extract_all st).1 p = some c) ∧
    (fsGet ts.st p = some c →
      fsGet (main_translate g args lang secFolder outFolder ts).st p = some c) ∧
    (fsExists accS.1 (slicePath secFolder item) = true →
      sliceStep args doc secFolder accS item = accS) ∧
    (fsExists accE.1 (secFolder ++ "/" ++ pyReplace pdf_name ".pdf" ".txt") = true →
      extractStep args secFolder accE pdf_name = accE) ∧
    (fsExists accT.st (out ++ "/" ++ base ++ ".txt") = true →
      translateStep g args lang scan out accT base = accT) := by
  refine ⟨?_, ?_, ?_, ?_, ?_, ?_, ?_⟩
  · intro h
    simp only [main_slice]
    split
    · apply foldl_preserves_fst
      · intro acc x p' c' h'
        exact sliceStep_preserves args doc secFolder acc x h'
      · exact (fsGet_mkdir st secFolder p).trans h
    · exact h
  · intro h
    simp only [main_extract]
    split
    · apply foldl_preserves_fst
      · intro acc x p' c' h'
        exact extractStep_preserves args secFolder acc x h'
      · exact h
    · split
      · exact h
      · exact h
  · intro h
    simp only [extract_all]
    split
    · apply foldl_preserves_fst
      · intro acc x p' c' h'
        dsimp only
        split
        · next hnex =>
          split
          · exact fsGet_fsWrite_preserved (by simpa using hnex) h'
          · exact h'
        · exact h'
      · exact h
    · exact h
  · intro h
    simp only [main_translate, translateScan]
    apply foldl_preserves_ts
    · intro acc x p' c' h'
      exact translateStep_preserves g args lang _ outFolder acc x h'
    · exact (fsGet_mkdir ts.st outFolder p).trans h
  · intro hex
    simp only [sliceStep]
    split <;> simp_all
  · intro hex
    simp only [extractStep]
    split <;> simp_all
  · intro hex
    simp only [translateStep]
    split <;> simp_all

/-- C2 witness: on a concrete sections folder holding both a regenerated
sliced document and a manually edited text for segment 1, all four runs
leave the manual edit byte-identical, and all three loop bodies are the
identity on states whose target already exists. -/
theorem c2_witness :
    fsGet (main_slice argsNone "b.pdf" ⟨["x"], []⟩ [⟨1, "a", 0, 0⟩] "sections_b" c2FS).1
        "sections_b/01_a.txt" = some (.text "manual edit") ∧
    fsGet (main_extract argsNone "b.pdf" "sections_b" c2FS).1
        "sections_b/01_a.txt" = some (.text "manual edit") ∧
    fsGet (extract_all c2FS).1 "sections_b/01_a.txt" = some (.text "manual edit") ∧
    fsGet (main_translate gOk argsNone "Persian" "sections_b" "translations_b"
        ⟨c2FS, [], [], []⟩).st "sections_b/01_a.txt" = some (.text "manual edit") ∧
    sliceStep argsNone ⟨["x"], []⟩ "sections_b" (c2FS, []) ⟨1, "a", 0, 0⟩ = (c2FS, []) ∧
    extractStep argsNone "sections_b" (c2FS, []) "01_a.pdf" = (c2FS, []) ∧
    translateStep gOk argsNone "Persian" "sections_b" "translations_b" c2TS "01_a" = c2TS := by
  have h := c2_stage_idempotent argsNone "b.pdf" "Persian" "sections_b" "translations_b"
    "sections_b" "translations_b" ⟨["x"], []⟩ [⟨1, "a", 0, 0⟩] gOk c2FS ⟨c2FS, [], [], []⟩
    (c2FS, []) (c2FS, []) c2TS ⟨1, "a", 0, 0⟩ "01_a.pdf" "01_a"
    "sections_b/01_a.txt" (.text "manual edit")
  exact ⟨h.1 (by decide), h.2.1 (by decide), h.2.2.1 (by decide), h.2.2.2.1 (by decide),
    h.2.2.2.2.1 (by decide), h.2.2.2.2.2.1 (by decide), h.2.2.2.2.2.2 (by decide)⟩

/-- C6: for a candidate that passes the filter and has no translation yet:
when the Extracted Text exists it is read and submitted as the payload and
nothing is uploaded; when only the Sliced Document exists it is uploaded
(and polling returns the first state that differs from PROCESSING); when
neither artifact exists the candidate is skipped — filesystem, uploads and
log are unchanged, so no artifact is produced. -/
theorem c6_payload_priority (g : GenAI) (args : Args) (lang scan out : String)
    (acc : TransState) (base : String)
    (hf : is_in_range (parseIdx base) args = true)
    (ht : fsExists acc.st (out ++ "/" ++ base ++ ".txt") = false) :
    (fsExists acc.st (scan ++ "/" ++ base ++ ".txt") = true →
      (translateStep g args lang scan out acc base).uploads = acc.uploads ∧
      (∀ resp, g.generate
          (.text (readTextData (fsGet acc.st (scan ++ "/" ++ base ++ ".txt"))))
          (mkPrompt lang) = .ok resp →
        (translateStep g args lang scan out acc base).st =
          fsWrite acc.st (out ++ "/" ++ base ++ ".txt") (.text resp))) ∧
    (fsExists acc.st (scan ++ "/" ++ base ++ ".txt") = false →
      fsExists acc.st (scan ++ "/" ++ base ++ ".pdf") = true →
      (translateStep g args lang scan out acc base).uploads =
        acc.uploads ++ [scan ++ "/" ++ base ++ ".pdf"]) ∧
    (fsExists acc.st (scan ++ "/" ++ base ++ ".txt") = false →
      fsExists acc.st (scan ++ "/" ++ base ++ ".pdf") = false →
      (translateStep g args lang scan out acc base).st = acc.st ∧
      (translateStep g args lang scan out acc base).uploads = acc.uploads ∧
      (translateStep g args lang scan out acc base).log = acc.log) ∧
    (∀ l, pollStates l = List.find? (fun s => !(s == "PROCESSING")) l) := by
  obtain ⟨ast, apr, alog, aup⟩ := acc
  refine ⟨?_, ?_, ?_, ?_⟩
  · intro htxt
    constructor
    · simp only [translateStep, hf, ht, htxt]
      simp only [not_true_eq_false, Bool.false_eq_true, if_false, if_true]
      split <;> rfl
    · intro resp hresp
      simp only [translateStep, hf, ht, htxt, hresp]
      simp only [not_true_eq_false, Bool.false_eq_true, if_false, if_true]
  · intro htxt hpdf
    simp only [translateStep, hf, ht, htxt, hpdf]
    simp only [not_true_eq_false, Bool.false_eq_true, if_false, if_true]
    split
    · rfl
    · split <;> rfl
  · intro htxt hpdf
    refine ⟨?_, ?_, ?_⟩ <;>
      simp only [translateStep, hf, ht, htxt, hpdf, not_true_eq_false,
        Bool.false_eq_true, if_false, if_true]
  · intro l
    induction l with
    | nil => rfl
    | cons s r ih =>
      simp only [pollStates, List.find?_cons]
      cases hs : s == "PROCESSING" <;> simp [hs, ih]

/-- C6 witness: with both artifacts present the text is submitted and
nothing is uploaded; with only the sliced document present it is uploaded;
with neither present nothing changes; polling skips PROCESSING. -/
theorem c6_witness :
    (translateStep gOk argsNone "Persian" "s" "t" c6TS "01_a").uploads = [] ∧
    (translateStep gOk argsNone "Persian" "s" "t" c6TS "01_a").st =
      fsWrite c6TS.st "t/01_a.txt" (.text "T:refined") ∧
    (translateStep gOk argsNone "Persian" "s" "t" c6TSb "01_b").uploads = ["s/01_b.pdf"] ∧
    (translateStep gOk argsNone "Persian" "s" "t" c6TSc "01_c").st = c6TSc.st ∧
    pollStates ["PROCESSING", "ACTIVE"] = some "ACTIVE" := by
  have hA := c6_payload_priority gOk argsNone "Persian" "s" "t" c6TS "01_a"
    (by decide) (by decide)
  have hB := c6_payload_priority gOk argsNone "Persian" "s" "t" c6TSb "01_b"
    (by decide) (by decide)
  have hC := c6_payload_priority gOk argsNone "Persian" "s" "t" c6TSc "01_c"
    (by decide) (by decide)
  refine ⟨(hA.1 (by decide)).1, ?_, hB.2.1 (by decide) (by decide),
    (hC.2.2.1 (by decide) (by decide)).1, ?_⟩
  · exact (hA.1 (by decide)).2 "T:refined" rfl
  · rw [hA.2.2.2 ["PROCESSING", "ACTIVE"]]
    decide

/-- C7: a candidate that passes the filter, has no translation yet and has a
payload, but whose remote call raises: the exception is caught — the
per-candidate step returns normally — the operator sees the error line, the
persistent log gains an ERROR entry carrying the candidate's name and the
message, the filesystem is untouched (no Translated Text artifact), and the
run continues with the remaining candidates. -/
theorem c7_error_recovery (g : GenAI) (args : Args) (lang scan out : String)
    (acc : TransState) (base e : String) (rest : List String)
    (hf : is_in_range (parseIdx base) args = true)
    (ht : fsExists acc.st (out ++ "/" ++ base ++ ".txt") = false) :
    (fsExists acc.st (scan ++ "/" ++ base ++ ".txt") = true →
      g.generate (.text (readTextData (fsGet acc.st (scan ++ "/" ++ base ++ ".txt"))))
        (mkPrompt lang) = .error e →
      translateStep g args lang scan out acc base =
        { acc with
          prints := acc.prints ++
            ["Translating index " ++ toString (parseIdx base) ++ " (" ++ base ++ ")...",
             "Error on " ++ base ++ ": " ++ e],
          log := acc.log ++ ["ERROR: Error on " ++ base ++ ": " ++ e] }) ∧
    (fsExists acc.st (scan ++ "/" ++ base ++ ".txt") = false →
      fsExists acc.st (scan ++ "/" ++ base ++ ".pdf") = true →
      ∀ s, pollStates (g.uploadStates (scan ++ "/" ++ base ++ ".pdf")) = some s →
      g.generate (.file (readPdfData (fsGet acc.st (scan ++ "/" ++ base ++ ".pdf"))))
        (mkPrompt lang) = .error e →
      translateStep g args lang scan out acc base =
        { acc with
          prints := acc.prints ++
            ["Translating index " ++ toString (parseIdx base) ++ " (" ++ base ++ ")...",
             "Error on " ++ base ++ ": " ++ e],
          log := acc.log ++ ["ERROR: Error on " ++ base ++ ": " ++ e],
          uploads := acc.uploads ++ [scan ++ "/" ++ base ++ ".pdf"] }) ∧
    ((base :: rest).foldl (translateStep g args lang scan out) acc =
      rest.foldl (translateStep g args lang scan out)
        (translateStep g args lang scan out acc base)) := by
  obtain ⟨ast, apr, alog, aup⟩ := acc
  refine ⟨?_, ?_, rfl⟩
  · intro htxt hgen
    simp only [translateStep, hf, ht, htxt, hgen, not_true_eq_false,
      Bool.false_eq_true, if_false, if_true]
    simp [List.append_assoc]
  · intro htxt hpdf s hpoll hgen
    simp only [translateStep, hf, ht, htxt, hpdf, hpoll, hgen, not_true_eq_false,
      Bool.false_eq_true, if_false, if_true]
    simp [List.append_assoc]

/-- C7 witness: on a concrete state with a refined text payload and a client
that raises, the step logs and prints the error, writes nothing, and the
two-candidate run continues with the second candidate. -/
theorem c7_witness :
    translateStep gErr argsNone "Persian" "s" "t" c6TS "01_a" =
      { c6TS with
        prints := ["Translating index 1 (01_a)...", "Error on 01_a: boom"],
        log := ["ERROR: Error on 01_a: boom"] } ∧
    ["01_a", "02_b"].foldl (translateStep gErr argsNone "Persian" "s" "t") c6TS =
      ["02_b"].foldl (translateStep gErr argsNone "Persian" "s" "t")
        (translateStep gErr argsNone "Persian" "s" "t" c6TS "01_a") := by
  have h := c7_error_recovery gErr argsNone "Persian" "s" "t" c6TS "01_a" "boom"
    ["02_b"] (by decide) (by decide)
  exact ⟨h.1 (by decide) rfl, h.2.2⟩

/-- C8 counterexample: with the sections folder absent, the translate stage
is not skipped and produces no missing-folder message: it scans the current
directory, processes the candidate found there and writes its Translated
Text artifact. -/
theorem c8_counterexample :
    dirExists c8FS "sections_x" = false ∧
    fsGet (main_translate gOk argsNone "Persian" "sections_x" "translations_x"
        ⟨c8FS, [], [], []⟩).st "translations_x/01_a.txt" = some (.text "T:hi") ∧
    (main_translate gOk argsNone "Persian" "sections_x" "translations_x"
        ⟨c8FS, [], [], []⟩).prints = ["Translating index 1 (01_a)..."] := by
  decide

/-- C8 amended: when the sections folder does not exist, the extract stage
alone is skipped entirely — with the descriptive message printed exactly
when the input name does not end in `.txt` (case-insensitively), silently
otherwise — while the translate stage is not skipped: it proceeds over the
current directory as its scan location. -/
theorem c8_amended_skip (args : Args) (input secFolder outFolder lang : String)
    (g : GenAI) (st : FS) (ts : TransState)
    (hdir : dirExists st secFolder = false)
    (hdt : dirExists (mkdirIfMissing ts.st outFolder) secFolder = false) :
    (¬ strEndsWith (strToLower input) ".txt" = true →
      main_extract args input secFolder st =
        (st, ["Folder " ++ secFolder ++
          " not found. Please run with '--action slice' first."])) ∧
    (strEndsWith (strToLower input) ".txt" = true →
      main_extract args input secFolder st = (st, [])) ∧
    (main_translate g args lang secFolder outFolder ts =
      translateScan g args lang outFolder "."
        { ts with st := mkdirIfMissing ts.st outFolder }) := by
  refine ⟨?_, ?_, ?_⟩
  · intro hin
    simp only [main_extract, hdir, Bool.false_eq_true, if_false]
    rw [if_pos hin]
  · intro hin
    simp only [main_extract, hdir, Bool.false_eq_true, if_false]
    rw [if_neg (by simp [hin])]
  · simp only [main_translate, hdt, Bool.false_eq_true, if_false]

/-- C8 witness: on a concrete filesystem without the sections folder, a pdf
input gets the notice and the extract stage changes nothing, a txt input is
skipped silently, and the translate stage equals the current-directory scan. -/
theorem c8_witness :
    main_extract argsNone "b.pdf" "sections_x" c8FS =
      (c8FS, ["Folder sections_x not found. Please run with '--action slice' first."]) ∧
    main_extract argsNone "b.txt" "sections_x" c8FS = (c8FS, []) ∧
    main_translate gOk argsNone "Persian" "sections_x" "translations_x"
        ⟨c8FS, [], [], []⟩ =
      translateScan gOk argsNone "Persian" "translations_x" "."
        ⟨mkdirIfMissing c8FS "translations_x", [], [], []⟩ := by
  have h1 := c8_amended_skip argsNone "b.pdf" "sections_x" "translations_x" "Persian"
    gOk c8FS ⟨c8FS, [], [], []⟩ (by decide) (by decide)
  have h2 := c8_amended_skip argsNone "b.txt" "sections_x" "translations_x" "Persian"
    gOk c8FS ⟨c8FS, [], [], []⟩ (by decide) (by decide)
  exact ⟨h1.1 (by decide), h2.2.1 (by decide), h1.2.2⟩
